import Mathlib

/-! Snowflake identifier generator

A shallow embedding of `snowflake.go`.  Go's `int64` is modelled by `Int`,
with every arithmetic operation that can overflow reduced to the signed
64-bit range by `wrap64`.  The wall clock read by `getMilliSeconds` is
modelled as the list of readings it will deliver, consumed front to back; a
call that needs a reading when none is left has no result (`none`), which is
how a busy-wait that never ends shows up in the model.
-/

namespace Snowflakego

/-! ## 64-bit signed arithmetic -/

/-- Reduction of an integer to the signed 64-bit range (two's complement). -/
def wrap64 (x : Int) : Int := (x + 2 ^ 63) % 2 ^ 64 - 2 ^ 63

/-- Addition on int64 (wrapping). -/
def add64 (x y : Int) : Int := wrap64 (x + y)

/-- Subtraction on int64 (wrapping). -/
def sub64 (x y : Int) : Int := wrap64 (x - y)

/-- Left shift on int64 by `k` bits (wrapping). -/
def shl64 (x : Int) (k : Nat) : Int := wrap64 (x * 2 ^ k)

/-- Arithmetic right shift on int64 by `k` bits. -/
def shr64 (x : Int) (k : Nat) : Int := x / 2 ^ k

/-- Bitwise or on int64. -/
def or64 (x y : Int) : Int := Int.lor x y

/-- Bitwise and on int64. -/
def and64 (x y : Int) : Int := Int.land x y

/-- Membership in the int64 range. -/
def isInt64 (x : Int) : Prop := -(2 ^ 63) ≤ x ∧ x < 2 ^ 63

instance (x : Int) : Decidable (isInt64 x) := by
  unfold isInt64; infer_instance

/-! ## Constants of the package -/

def epoch : Int := 1740304858525
def timeBits : Nat := 41
def sequenceBits : Nat := 12
def machineIDBits : Nat := 10

def machineIDMax : Int := Int.xor (-1) ((-1) <<< (machineIDBits : Int))
def sequenceMax : Int := Int.xor (-1) ((-1) <<< (sequenceBits : Int))
def timeMax : Int := Int.xor (-1) ((-1) <<< (timeBits : Int))

/-- The two error values of the package. -/
inductive Error where
  | ErrInvalidMachineID
  | ErrTimestampIsInvalid
  deriving DecidableEq, Repr

/-- The generator's fields (the mutex carries no data). -/
structure Snowflake where
  lastTimestamp : Int
  sequence : Int
  machineID : Int
  deriving DecidableEq, Repr

/-- Constructor `New`: `Except.error` stands for `(nil, err)`. -/
def New (machineID : Int) : Except Error Snowflake :=
  if machineID > machineIDMax then
    .error .ErrInvalidMachineID
  else
    .ok { machineID := machineID, sequence := 0, lastTimestamp := 0 }

/-- One clock read: the next reading and the readings still to come. -/
def getMilliSeconds (clock : List Int) : Option (Int × List Int) :=
  match clock with
  | [] => none
  | t :: rest => some (t, rest)

/-- The loop `for timestamp <= s.lastTimestamp { timestamp = s.getMilliSeconds() }`. -/
def waitNextMilli (lastTimestamp : Int) : Int → List Int → Option (Int × List Int)
  | timestamp, [] => if timestamp ≤ lastTimestamp then none else some (timestamp, [])
  | timestamp, t :: rest =>
    if timestamp ≤ lastTimestamp then waitNextMilli lastTimestamp t rest
    else some (timestamp, t :: rest)

/-- What a call hands back: the two return values, the generator afterwards
and the clock readings not yet consumed. -/
structure Outcome where
  id : Int
  err : Option Error
  state : Snowflake
  clock : List Int
  deriving DecidableEq, Repr

/-- The final assembly of the identifier, lines 79 to 83 of the source. -/
def assemble (timestamp machineID sequence : Int) : Int :=
  or64 (or64 (shl64 (sub64 timestamp epoch) (machineIDBits + sequenceBits))
    (shl64 machineID sequenceBits)) sequence

/-- Method `nextID`. -/
def nextID (s : Snowflake) (clock : List Int) : Option Outcome :=
  match getMilliSeconds clock with
  | none => none
  | some (timestamp, clock) =>
    if timestamp < s.lastTimestamp then
      some { id := 0, err := some .ErrTimestampIsInvalid, state := s, clock := clock }
    else
      let branch : Option (Int × Int × List Int) :=
        if timestamp = s.lastTimestamp then
          let sequence := and64 (add64 s.sequence 1) sequenceMax
          if sequence = 0 then
            match waitNextMilli s.lastTimestamp timestamp clock with
            | none => none
            | some (timestamp, clock) => some (sequence, timestamp, clock)
          else some (sequence, timestamp, clock)
        else some (0, timestamp, clock)
      match branch with
      | none => none
      | some (sequence, timestamp, clock) =>
        some { id := assemble timestamp s.machineID sequence
               err := none
               state := { s with lastTimestamp := timestamp, sequence := sequence }
               clock := clock }

/-- Method `GenerateID`: `nextID` under the mutex. -/
def GenerateID (s : Snowflake) (clock : List Int) : Option Outcome :=
  nextID s clock

/-- The outcomes of up to `n` successive `GenerateID` calls on one generator,
each call reading the clock where the previous one stopped.  The list ends
early at a call that never returns. -/
def generateMany : Nat → Snowflake → List Int → List Outcome
  | 0, _, _ => []
  | n + 1, s, clock =>
    match GenerateID s clock with
    | none => []
    | some o => o :: generateMany n o.state o.clock

/-- The identifiers handed out by the successful calls of a run. -/
def successIDs (os : List Outcome) : List Int :=
  (os.filter (fun o => o.err = none)).map (fun o => o.id)

/-- Decoding of an identifier into (elapsed, machineID, sequence). -/
def decode (id : Int) : Int × Int × Int :=
  (shr64 id 22, and64 (shr64 id 12) 1023, and64 id 4095)

/-- Strict lexicographic order on decoded triples. -/
def lexLt (a b : Int × Int × Int) : Prop :=
  a.1 < b.1 ∨ (a.1 = b.1 ∧ (a.2.1 < b.2.1 ∨ (a.2.1 = b.2.1 ∧ a.2.2 < b.2.2)))

instance (a b : Int × Int × Int) : Decidable (lexLt a b) := by
  unfold lexLt; infer_instance

/-- Strict lexicographic order on (lastTimestamp, sequence) pairs. -/
def pairLt (a b : Int × Int) : Prop :=
  a.1 < b.1 ∨ (a.1 = b.1 ∧ a.2 < b.2)

instance (a b : Int × Int) : Decidable (pairLt a b) := by
  unfold pairLt; infer_instance

/-- The (lastTimestamp, sequence) pairs the successful calls of a run finish
with. -/
def successPairs (os : List Outcome) : List (Int × Int) :=
  (os.filter (fun o => o.err = none)).map
    (fun o => (o.state.lastTimestamp, o.state.sequence))

/-! ## Bitwise operations as arithmetic -/

theorem lor_zero_right (x : Int) : Int.lor x 0 = x := by
  cases x with
  | ofNat m => show ((m ||| 0 : Nat) : Int) = m; simp
  | negSucc m =>
    show Int.negSucc (Nat.ldiff m 0) = Int.negSucc m
    simp [Nat.ldiff, Nat.bitwise_zero_right]

theorem land_zero_right (x : Int) : Int.land x 0 = 0 := by
  cases x with
  | ofNat m => show ((m &&& 0 : Nat) : Int) = 0; simp
  | negSucc m =>
    show ((Nat.ldiff 0 m : Nat) : Int) = 0
    simp [Nat.ldiff, Nat.bitwise_zero_left]

/-- Or-ing a value below `2 ^ k` into a multiple of `2 ^ k` adds it. -/
theorem lor_mul_pow_add (k : Nat) : ∀ x y : Int, 0 ≤ y → y < 2 ^ k →
    Int.lor (x * 2 ^ k) y = x * 2 ^ k + y := by
  induction k with
  | zero =>
    intro x y h0 h1
    have : y = 0 := by simp at h1; omega
    subst this
    simp [lor_zero_right]
  | succ k ih =>
    intro x y h0 h1
    have hx : x * 2 ^ (k + 1) = Int.bit false (x * 2 ^ k) := by
      rw [Int.bit_val]; simp [pow_succ]; ring
    have hy : y = Int.bit (Int.bodd y) (Int.div2 y) := (Int.bit_decomp y).symm
    have hd : Int.div2 y = y / 2 := Int.div2_val y
    have h2 : 0 ≤ y / 2 := by omega
    have h3 : y / 2 < 2 ^ k := by
      have : (2 : Int) ^ (k + 1) = 2 * 2 ^ k := by ring
      omega
    have hlor : Int.lor (Int.bit false (x * 2 ^ k)) (Int.bit (Int.bodd y) (Int.div2 y))
        = Int.bit (Int.bodd y) (x * 2 ^ k + y / 2) := by
      rw [Int.lor_bit, hd, ih x (y / 2) h2 h3]; simp
    have hy2 : y = 2 * (y / 2) + cond (Int.bodd y) 1 0 := by
      have := Int.bit_val (Int.bodd y) (Int.div2 y)
      rw [← hy, hd] at this; exact this
    rw [hx]
    conv_lhs => rw [hy]
    rw [hlor, Int.bit_val, Int.bit_val]
    simp only [Bool.cond_false]
    omega

/-- And-ing with `2 ^ k - 1` keeps the remainder modulo `2 ^ k`. -/
theorem land_pow_sub_one (k : Nat) : ∀ x : Int, Int.land x (2 ^ k - 1) = x % 2 ^ k := by
  induction k with
  | zero => intro x; simp [land_zero_right]
  | succ k ih =>
    intro x
    have hp : (0 : Int) < 2 ^ k := by positivity
    have hm : (2 : Int) ^ (k + 1) - 1 = Int.bit true (2 ^ k - 1) := by
      rw [Int.bit_val]; simp [pow_succ]; ring
    have hx : x = Int.bit (Int.bodd x) (Int.div2 x) := (Int.bit_decomp x).symm
    have hd : Int.div2 x = x / 2 := Int.div2_val x
    have hx2 : x = 2 * (x / 2) + cond (Int.bodd x) 1 0 := by
      have := Int.bit_val (Int.bodd x) (Int.div2 x)
      rw [← hx, hd] at this; exact this
    have hb : (cond (Int.bodd x) 1 0 : Int) = 0 ∨ (cond (Int.bodd x) 1 0 : Int) = 1 := by
      cases Int.bodd x <;> simp
    rw [hm]
    conv_lhs => rw [hx]
    rw [Int.land_bit, hd, ih, Int.bit_val]
    simp only [Bool.and_true]
    have e1 : (2 : Int) ^ (k + 1) = 2 * 2 ^ k := by ring
    rw [e1]
    generalize (2 : Int) ^ k = P at hp ⊢
    generalize (cond (Int.bodd x) 1 0 : Int) = b at hx2 hb ⊢
    generalize x / 2 = h at hx2 ⊢
    have hq := Int.emod_add_ediv h P
    have hr0 := Int.emod_nonneg h (ne_of_gt hp)
    have hr1 := Int.emod_lt_of_pos h hp
    have e2 : x = (2 * (h % P) + b) + (2 * P) * (h / P) := by
      have : 2 * h = 2 * (h % P) + 2 * (P * (h / P)) := by
        rw [← mul_add, hq]
      rw [mul_assoc]; omega
    calc 2 * (h % P) + b = (2 * (h % P) + b) % (2 * P) := by
          symm; apply Int.emod_eq_of_lt <;> omega
      _ = ((2 * (h % P) + b) + (2 * P) * (h / P)) % (2 * P) := by
          rw [Int.add_mul_emod_self_left]
      _ = x % (2 * P) := by rw [← e2]

/-- Or of two multiples of `2 ^ k` is the or of the quotients, shifted back. -/
theorem lor_mul_pow (k : Nat) : ∀ a b : Int,
    Int.lor (a * 2 ^ k) (b * 2 ^ k) = Int.lor a b * 2 ^ k := by
  induction k with
  | zero => intro a b; simp
  | succ k ih =>
    intro a b
    have h : ∀ z : Int, z * 2 ^ (k + 1) = Int.bit false (z * 2 ^ k) := by
      intro z; rw [Int.bit_val]; simp [pow_succ]; ring
    rw [h a, h b, h (Int.lor a b), Int.lor_bit, ih]; simp

theorem machineIDMax_eq : machineIDMax = 1023 := by decide

theorem sequenceMax_eq : sequenceMax = 4095 := by decide

theorem and64_4095 (x : Int) : and64 x 4095 = x % 4096 := by
  have := land_pow_sub_one 12 x
  norm_num at this
  exact this

theorem and64_1023 (x : Int) : and64 x 1023 = x % 1024 := by
  have := land_pow_sub_one 10 x
  norm_num at this
  exact this

theorem wrap64_isInt64 (x : Int) : isInt64 (wrap64 x) := by
  unfold isInt64 wrap64; omega

theorem wrap64_of_isInt64 (x : Int) (h : isInt64 x) : wrap64 x = x := by
  unfold isInt64 at h; unfold wrap64; omega

theorem shl64_22_mod (x : Int) : shl64 x 22 % 4194304 = 0 := by
  unfold shl64 wrap64; norm_num; omega

theorem shl64_12_mod (x : Int) : shl64 x 12 % 4096 = 0 := by
  unfold shl64 wrap64; norm_num; omega

/-- The sequence field of an assembled identifier, for any machine ID. -/
theorem assemble_low (t m q : Int) (h0 : 0 ≤ q) (h1 : q ≤ 4095) :
    and64 (assemble t m q) 4095 = q := by
  unfold assemble or64
  have hA := shl64_22_mod (sub64 t epoch)
  have hB := shl64_12_mod m
  simp only [machineIDBits, sequenceBits]
  generalize shl64 (sub64 t epoch) (10 + 12) = A at hA ⊢
  generalize shl64 m 12 = B at hB ⊢
  have eA : A = A / 4096 * 2 ^ 12 := by norm_num; omega
  have eB : B = B / 4096 * 2 ^ 12 := by norm_num; omega
  rw [eA, eB, lor_mul_pow, lor_mul_pow_add 12 _ q h0 (by norm_num; omega), and64_4095]
  norm_num; omega

/-- With a machine ID of ten bits and a sequence of twelve, the three fields
do not overlap and the ors are sums. -/
theorem assemble_eq_add (t m q : Int) (hm0 : 0 ≤ m) (hm1 : m ≤ 1023)
    (h0 : 0 ≤ q) (h1 : q ≤ 4095) :
    assemble t m q = shl64 (sub64 t epoch) 22 + m * 4096 + q := by
  unfold assemble or64
  have hA := shl64_22_mod (sub64 t epoch)
  have hB : shl64 m 12 = m * 4096 := by unfold shl64 wrap64; norm_num; omega
  simp only [machineIDBits, sequenceBits]
  rw [hB]
  generalize shl64 (sub64 t epoch) (10 + 12) = A at hA ⊢
  have eA : A = A / 4194304 * 2 ^ 22 := by norm_num; omega
  have e1 : Int.lor A (m * 4096) = A + m * 4096 := by
    conv_lhs => rw [eA]
    rw [lor_mul_pow_add 22 _ (m * 4096) (by omega) (by norm_num; omega)]
    omega
  have e2 : A + m * 4096 = (A / 4096 + m) * 2 ^ 12 := by norm_num; omega
  rw [e1, e2, lor_mul_pow_add 12 _ q h0 (by norm_num; omega)]

/-- Inside the 41-bit range the time field is shifted without overflow. -/
theorem shl64_sub64_inrange (t : Int) (h0 : 0 ≤ t - epoch) (h1 : t - epoch < 2 ^ 41) :
    shl64 (sub64 t epoch) 22 = (t - epoch) * 4194304 := by
  norm_num at h1
  unfold shl64 sub64 wrap64; norm_num; omega

/-! ## The busy-wait loop -/

/-- A wait that starts above `lastTimestamp` consumes nothing. -/
theorem waitNextMilli_of_gt (last ts : Int) (clock : List Int) (h : last < ts) :
    waitNextMilli last ts clock = some (ts, clock) := by
  cases clock with
  | nil => simp [waitNextMilli, not_le.mpr h]
  | cons t rest => simp [waitNextMilli, not_le.mpr h]

/-- The wait skips every reading that is not above `lastTimestamp` and stops
at the first one that is. -/
theorem waitNextMilli_skip (last u : Int) (post : List Int) (hu : last < u) :
    ∀ (pre : List Int) (ts : Int), ts ≤ last → (∀ x ∈ pre, x ≤ last) →
      waitNextMilli last ts (pre ++ u :: post) = some (u, post) := by
  intro pre
  induction pre with
  | nil =>
    intro ts hts _
    simp only [List.nil_append, waitNextMilli, if_pos hts]
    exact waitNextMilli_of_gt last u post hu
  | cons p pre ih =>
    intro ts hts hpre
    simp only [List.cons_append, waitNextMilli, if_pos hts]
    exact ih p (hpre p (List.mem_cons_self _ _))
      (fun x hx => hpre x (List.mem_cons_of_mem _ hx))

/-- Whatever the wait returns is above `lastTimestamp`; it is either the
starting value, with the clock untouched, or the first reading above
`lastTimestamp`, with the clock cut right after it. -/
theorem waitNextMilli_some (last : Int) : ∀ (clock : List Int) (ts u : Int) (c : List Int),
    waitNextMilli last ts clock = some (u, c) →
      last < u ∧ ((u = ts ∧ c = clock) ∨
        (ts ≤ last ∧ ∃ pre, clock = pre ++ u :: c ∧ ∀ x ∈ pre, x ≤ last)) := by
  intro clock
  induction clock with
  | nil =>
    intro ts u c h
    by_cases hts : ts ≤ last
    · simp [waitNextMilli, hts] at h
    · simp only [waitNextMilli, if_neg hts, Option.some.injEq, Prod.mk.injEq] at h
      obtain ⟨rfl, rfl⟩ := h
      exact ⟨not_le.mp hts, Or.inl ⟨rfl, rfl⟩⟩
  | cons t rest ih =>
    intro ts u c h
    by_cases hts : ts ≤ last
    · simp only [waitNextMilli, if_pos hts] at h
      obtain ⟨hu, hcase⟩ := ih t u c h
      refine ⟨hu, Or.inr ⟨hts, ?_⟩⟩
      rcases hcase with ⟨rfl, rfl⟩ | ⟨ht, pre, rfl, hpre⟩
      · exact ⟨[], rfl, by simp⟩
      · refine ⟨t :: pre, rfl, ?_⟩
        intro x hx
        rcases List.mem_cons.mp hx with rfl | hx
        · exact ht
        · exact hpre x hx
    · simp only [waitNextMilli, if_neg hts, Option.some.injEq, Prod.mk.injEq] at h
      obtain ⟨rfl, rfl⟩ := h
      exact ⟨not_le.mp hts, Or.inl ⟨rfl, rfl⟩⟩

/-! ## The four paths of `nextID` -/

theorem nextID_nil (s : Snowflake) : nextID s [] = none := rfl

/-- Clock regression path. -/
theorem nextID_regress (s : Snowflake) (t : Int) (rest : List Int)
    (h : t < s.lastTimestamp) :
    nextID s (t :: rest) =
      some { id := 0, err := some .ErrTimestampIsInvalid, state := s, clock := rest } := by
  simp [nextID, getMilliSeconds, h]

/-- New-millisecond path. -/
theorem nextID_new (s : Snowflake) (t : Int) (rest : List Int)
    (h : s.lastTimestamp < t) :
    nextID s (t :: rest) =
      some { id := assemble t s.machineID 0, err := none,
             state := { s with lastTimestamp := t, sequence := 0 }, clock := rest } := by
  simp [nextID, getMilliSeconds, not_lt.mpr (le_of_lt h), ne_of_gt h]

/-- Same-millisecond path without overflow. -/
theorem nextID_same (s : Snowflake) (t : Int) (rest : List Int)
    (h : t = s.lastTimestamp) (hq : and64 (add64 s.sequence 1) sequenceMax ≠ 0) :
    nextID s (t :: rest) =
      some { id := assemble t s.machineID (and64 (add64 s.sequence 1) sequenceMax),
             err := none,
             state := { s with lastTimestamp := t,
                               sequence := and64 (add64 s.sequence 1) sequenceMax },
             clock := rest } := by
  subst h
  simp [nextID, getMilliSeconds, hq]

/-- Same-millisecond path with overflow of the sequence. -/
theorem nextID_overflow (s : Snowflake) (t : Int) (rest : List Int)
    (h : t = s.lastTimestamp) (hq : and64 (add64 s.sequence 1) sequenceMax = 0) :
    nextID s (t :: rest) =
      match waitNextMilli s.lastTimestamp t rest with
      | none => none
      | some (u, c) =>
        some { id := assemble u s.machineID 0, err := none,
               state := { s with lastTimestamp := u, sequence := 0 }, clock := c } := by
  subst h
  simp only [nextID, getMilliSeconds, lt_irrefl, if_false, if_true, hq]
  cases waitNextMilli s.lastTimestamp s.lastTimestamp rest with
  | none => rfl
  | some p => rfl

/-- The sequence value written on the same-millisecond path is a 12-bit value. -/
theorem bump_range (q : Int) :
    0 ≤ and64 (add64 q 1) sequenceMax ∧ and64 (add64 q 1) sequenceMax ≤ 4095 := by
  rw [sequenceMax_eq, and64_4095]; omega

/-- On a sequence inside its range the bump is the successor below 4095 and
zero at 4095. -/
theorem bump_eq (q : Int) (h0 : 0 ≤ q) (h1 : q ≤ 4095) :
    and64 (add64 q 1) sequenceMax = if q = 4095 then 0 else q + 1 := by
  rw [sequenceMax_eq, and64_4095]
  unfold add64 wrap64
  split <;> omega

/-- Everything known about a call that returned without error. -/
theorem nextID_ok_inv (s : Snowflake) (clock : List Int) (o : Outcome)
    (h : nextID s clock = some o) (he : o.err = none) :
    o.id = assemble o.state.lastTimestamp o.state.machineID o.state.sequence ∧
    o.state.machineID = s.machineID ∧
    0 ≤ o.state.sequence ∧ o.state.sequence ≤ 4095 ∧
    o.state.lastTimestamp ∈ clock ∧
    (∃ used, clock = used ++ o.clock) ∧
    ((s.lastTimestamp < o.state.lastTimestamp ∧ o.state.sequence = 0) ∨
     (o.state.lastTimestamp = s.lastTimestamp ∧
      o.state.sequence = and64 (add64 s.sequence 1) sequenceMax ∧
      o.state.sequence ≠ 0)) := by
  cases clock with
  | nil => simp [nextID_nil] at h
  | cons t rest =>
    rcases lt_trichotomy t s.lastTimestamp with hlt | heq | hgt
    · rw [nextID_regress s t rest hlt] at h
      cases h; simp at he
    · by_cases hq : and64 (add64 s.sequence 1) sequenceMax = 0
      · rw [nextID_overflow s t rest heq hq] at h
        cases hw : waitNextMilli s.lastTimestamp t rest with
        | none => rw [hw] at h; simp at h
        | some p =>
          obtain ⟨u, c⟩ := p
          rw [hw] at h
          simp only [Option.some.injEq] at h
          subst h
          obtain ⟨hu, hcase⟩ := waitNextMilli_some s.lastTimestamp rest t u c hw
          rcases hcase with ⟨rfl, _⟩ | ⟨_, pre, rfl, _⟩
          · omega
          · refine ⟨rfl, rfl, le_refl _, by norm_num, by simp, ⟨t :: pre ++ [u], by simp⟩,
              Or.inl ⟨hu, rfl⟩⟩
      · rw [nextID_same s t rest heq hq] at h
        simp only [Option.some.injEq] at h
        subst h
        have hr := bump_range s.sequence
        exact ⟨rfl, rfl, hr.1, hr.2, by simp, ⟨[t], by simp⟩, Or.inr ⟨heq, rfl, hq⟩⟩
    · rw [nextID_new s t rest hgt] at h
      simp only [Option.some.injEq] at h
      subst h
      exact ⟨rfl, rfl, le_refl _, by norm_num, by simp, ⟨[t], by simp⟩, Or.inl ⟨hgt, rfl⟩⟩

/-- Everything known about a call that returned an error. -/
theorem nextID_err_inv (s : Snowflake) (clock : List Int) (o : Outcome)
    (h : nextID s clock = some o) (he : o.err ≠ none) :
    ∃ t, clock = t :: o.clock ∧ t < s.lastTimestamp ∧ o.id = 0 ∧
      o.err = some .ErrTimestampIsInvalid ∧ o.state = s := by
  cases clock with
  | nil => simp [nextID_nil] at h
  | cons t rest =>
    rcases lt_trichotomy t s.lastTimestamp with hlt | heq | hgt
    · rw [nextID_regress s t rest hlt] at h
      simp only [Option.some.injEq] at h
      subst h
      exact ⟨t, rfl, hlt, rfl, rfl, rfl⟩
    · have hok : o.err = none := by
        by_cases hq : and64 (add64 s.sequence 1) sequenceMax = 0
        · rw [nextID_overflow s t rest heq hq] at h
          cases hw : waitNextMilli s.lastTimestamp t rest with
          | none => rw [hw] at h; simp at h
          | some p =>
            rw [hw] at h
            simp only [Option.some.injEq] at h
            subst h; rfl
        · rw [nextID_same s t rest heq hq] at h
          simp only [Option.some.injEq] at h
          subst h; rfl
      exact absurd hok he
    · rw [nextID_new s t rest hgt] at h
      simp only [Option.some.injEq] at h
      subst h
      exact absurd rfl he

/-- The wait returns as soon as a reading above `lastTimestamp` is still to
come. -/
theorem waitNextMilli_returns (last : Int) : ∀ (clock : List Int) (ts : Int),
    (∃ x ∈ clock, last < x) → ∃ u c, waitNextMilli last ts clock = some (u, c) := by
  intro clock
  induction clock with
  | nil => intro ts h; obtain ⟨x, hx, _⟩ := h; simp at hx
  | cons t rest ih =>
    intro ts h
    by_cases hts : ts ≤ last
    · simp only [waitNextMilli, if_pos hts]
      by_cases ht : last < t
      · exact ⟨t, rest, waitNextMilli_of_gt last t rest ht⟩
      · apply ih
        obtain ⟨x, hx, hlt⟩ := h
        rcases List.mem_cons.mp hx with rfl | hx
        · exact absurd hlt ht
        · exact ⟨x, hx, hlt⟩
    · exact ⟨ts, t :: rest, by simp [waitNextMilli, hts]⟩

/-- The wait never returns when no reading rises above `lastTimestamp`. -/
theorem waitNextMilli_none (last ts : Int) (clock : List Int) (hts : ts ≤ last)
    (h : ∀ x ∈ clock, x ≤ last) : waitNextMilli last ts clock = none := by
  cases hw : waitNextMilli last ts clock with
  | none => rfl
  | some p =>
    obtain ⟨u, c⟩ := p
    obtain ⟨hu, hcase⟩ := waitNextMilli_some last clock ts u c hw
    rcases hcase with ⟨rfl, _⟩ | ⟨_, pre, rfl, _⟩
    · omega
    · have := h u (by simp)
      omega

/-- The machine-ID field of an assembled identifier. -/
theorem assemble_machine_field (t m q : Int) (hm0 : 0 ≤ m) (hm1 : m ≤ 1023)
    (h0 : 0 ≤ q) (h1 : q ≤ 4095) :
    and64 (shr64 (assemble t m q) 12) 1023 = m := by
  rw [assemble_eq_add t m q hm0 hm1 h0 h1, and64_1023]
  have hA := shl64_22_mod (sub64 t epoch)
  unfold shr64
  norm_num
  omega

/-- A call never touches the machine ID. -/
theorem nextID_machineID (s : Snowflake) (clock : List Int) (o : Outcome)
    (h : nextID s clock = some o) : o.state.machineID = s.machineID := by
  by_cases he : o.err = none
  · exact (nextID_ok_inv s clock o h he).2.1
  · obtain ⟨_, _, _, _, _, hs⟩ := nextID_err_inv s clock o h he
    rw [hs]

/-- Every outcome of a run comes from a call on a state that satisfies any
property the start state has and every call preserves. -/
theorem generateMany_mem (P : Snowflake → Prop)
    (hstep : ∀ s c o, P s → nextID s c = some o → P o.state) :
    ∀ (n : Nat) (s : Snowflake) (c : List Int), P s →
      ∀ o ∈ generateMany n s c, ∃ s1 c1, P s1 ∧ nextID s1 c1 = some o := by
  intro n
  induction n with
  | zero => intro s c _ o ho; simp [generateMany] at ho
  | succ n ih =>
    intro s c hs o ho
    unfold generateMany GenerateID at ho
    cases hn : nextID s c with
    | none => rw [hn] at ho; simp at ho
    | some o1 =>
      rw [hn] at ho
      rcases List.mem_cons.mp ho with rfl | hmem
      · exact ⟨s, c, hs, hn⟩
      · exact ih o1.state o1.clock (hstep s c o1 hs hn) o hmem

/-! ## Runs of calls within one millisecond -/

/-- One call in the millisecond the generator is already in, below the last
sequence value. -/
theorem generateMany_succ_same (n : Nat) (s : Snowflake) (t : Int) (c : List Int)
    (hl : s.lastTimestamp = t) (h0 : 0 ≤ s.sequence) (h1 : s.sequence + 1 ≤ 4095) :
    generateMany (n + 1) s (t :: c) =
      { id := assemble t s.machineID (s.sequence + 1), err := none,
        state := ⟨t, s.sequence + 1, s.machineID⟩, clock := c } ::
        generateMany n ⟨t, s.sequence + 1, s.machineID⟩ c := by
  have hb : and64 (add64 s.sequence 1) sequenceMax = s.sequence + 1 := by
    rw [bump_eq s.sequence h0 (by omega), if_neg (by omega)]
  have hn := nextID_same s t c hl.symm (by rw [hb]; omega)
  rw [hb] at hn
  simp only [generateMany, GenerateID, hn]

/-- One call in a later millisecond than the generator's. -/
theorem generateMany_succ_new (n : Nat) (s : Snowflake) (t : Int) (c : List Int)
    (hl : s.lastTimestamp < t) :
    generateMany (n + 1) s (t :: c) =
      { id := assemble t s.machineID 0, err := none,
        state := ⟨t, 0, s.machineID⟩, clock := c } ::
        generateMany n ⟨t, 0, s.machineID⟩ c := by
  simp only [generateMany, GenerateID, nextID_new s t c hl]

/-- The `i`-th of `k` calls that all read the generator's current
millisecond. -/
theorem generateMany_same_get (t : Int) (rest : List Int) (j : Nat) :
    ∀ (k : Nat) (s : Snowflake), s.lastTimestamp = t → 0 ≤ s.sequence →
      s.sequence + k ≤ 4095 → ∀ i, i < k →
        (generateMany (k + j) s (List.replicate k t ++ rest))[i]? =
          some { id := assemble t s.machineID (s.sequence + 1 + i), err := none,
                 state := ⟨t, s.sequence + 1 + i, s.machineID⟩,
                 clock := List.replicate (k - 1 - i) t ++ rest } := by
  intro k
  induction k with
  | zero => intro s _ _ _ i hi; omega
  | succ k ih =>
    intro s hl h0 h1 i hi
    have e : k + 1 + j = (k + j) + 1 := by omega
    rw [e, List.replicate_succ, List.cons_append,
      generateMany_succ_same _ s t _ hl h0 (by omega)]
    cases i with
    | zero => simp
    | succ i =>
      rw [List.getElem?_cons_succ,
        ih ⟨t, s.sequence + 1, s.machineID⟩ rfl (by show 0 ≤ s.sequence + 1; omega)
          (by show s.sequence + 1 + (k : Int) ≤ 4095; push_cast at h1; omega) i (by omega)]
      have e1 : s.sequence + 1 + 1 + (i : Int) = s.sequence + 1 + ((i + 1 : Nat) : Int) := by
        push_cast; ring
      have e2 : k - 1 - i = k + 1 - 1 - (i + 1) := by omega
      simp only [e1, e2]

/-- After `k` calls in one millisecond the run goes on from sequence value
`sequence + k`. -/
theorem generateMany_same_drop (t : Int) (rest : List Int) (j : Nat) :
    ∀ (k : Nat) (s : Snowflake), s.lastTimestamp = t → 0 ≤ s.sequence →
      s.sequence + k ≤ 4095 → ∀ i,
        (generateMany (k + j) s (List.replicate k t ++ rest))[k + i]? =
          (generateMany j ⟨t, s.sequence + k, s.machineID⟩ rest)[i]? := by
  intro k
  induction k with
  | zero =>
    intro s hl _ _ i
    have : s = ⟨t, s.sequence + ((0 : Nat) : Int), s.machineID⟩ := by
      cases s; simp at hl; simp [hl]
    rw [← this]; simp
  | succ k ih =>
    intro s hl h0 h1 i
    have e : k + 1 + j = (k + j) + 1 := by omega
    have e3 : k + 1 + i = (k + i) + 1 := by omega
    rw [e, e3, List.replicate_succ, List.cons_append,
      generateMany_succ_same _ s t _ hl h0 (by omega), List.getElem?_cons_succ,
      ih ⟨t, s.sequence + 1, s.machineID⟩ rfl (by show 0 ≤ s.sequence + 1; omega)
        (by show s.sequence + 1 + (k : Int) ≤ 4095; push_cast at h1; omega) i]
    have e1 : s.sequence + 1 + (k : Int) = s.sequence + ((k + 1 : Nat) : Int) := by
      push_cast; ring
    simp only [e1]

/-- A generator accepted by `New` is the fresh one. -/
theorem New_ok (m : Int) (g : Snowflake) (hg : New m = .ok g) :
    g = ⟨0, 0, m⟩ ∧ m ≤ 1023 := by
  unfold New at hg
  rw [machineIDMax_eq] at hg
  by_cases h : m > 1023
  · rw [if_pos h] at hg; cases hg
  · rw [if_neg h] at hg; cases hg; exact ⟨rfl, by omega⟩

/-! ## Runs under a clock inside the 41-bit range -/

theorem successIDs_nil : successIDs [] = [] := rfl

theorem successIDs_cons_ok (o : Outcome) (os : List Outcome) (he : o.err = none) :
    successIDs (o :: os) = o.id :: successIDs os := by
  simp [successIDs, he]

theorem successIDs_cons_err (o : Outcome) (os : List Outcome) (he : o.err ≠ none) :
    successIDs (o :: os) = successIDs os := by
  simp [successIDs, he]

/-- Under a clock whose readings all lie in `[epoch, epoch + 2 ^ 41)`, the
identifiers of a run are strictly increasing, each lies above the encoding of
the state the run starts from, is non-negative and carries the machine ID. -/
theorem run_increasing : ∀ (n : Nat) (s : Snowflake) (clock : List Int),
    0 ≤ s.machineID → s.machineID ≤ 1023 → 0 ≤ s.sequence → s.sequence ≤ 4095 →
    (∀ x ∈ clock, epoch ≤ x ∧ x < epoch + 2 ^ 41) →
    (successIDs (generateMany n s clock)).Pairwise (fun a b => a < b) ∧
    ∀ id ∈ successIDs (generateMany n s clock),
      (s.lastTimestamp - epoch) * 4194304 + s.machineID * 4096 + s.sequence < id ∧
      0 ≤ id ∧ and64 (shr64 id 12) 1023 = s.machineID := by
  intro n
  induction n with
  | zero =>
    intro s clock _ _ _ _ _
    simp [generateMany, successIDs_nil]
  | succ n ih =>
    intro s clock hm0 hm1 hq0 hq1 hclock
    unfold generateMany GenerateID
    cases hn : nextID s clock with
    | none => simp [successIDs_nil]
    | some o =>
      simp only []
      by_cases he : o.err = none
      · obtain ⟨hid, hm, hoq0, hoq1, hmem, ⟨used, hused⟩, hcase⟩ :=
          nextID_ok_inv s clock o hn he
        have hr := hclock _ hmem
        have hoclock : ∀ x ∈ o.clock, epoch ≤ x ∧ x < epoch + 2 ^ 41 := by
          intro x hx
          apply hclock
          rw [hused]
          exact List.mem_append_right _ hx
        have hideq : o.id = (o.state.lastTimestamp - epoch) * 4194304
            + o.state.machineID * 4096 + o.state.sequence := by
          rw [hid, assemble_eq_add _ _ _ (by rw [hm]; exact hm0) (by rw [hm]; exact hm1)
            hoq0 hoq1, shl64_sub64_inrange _ (by omega) (by omega)]
        have hfield : and64 (shr64 o.id 12) 1023 = s.machineID := by
          rw [hid, hm]
          exact assemble_machine_field _ _ _ hm0 hm1 hoq0 hoq1
        have hstep : (s.lastTimestamp - epoch) * 4194304 + s.machineID * 4096
            + s.sequence < o.id := by
          rw [hideq, hm]
          rcases hcase with ⟨hlt, hz⟩ | ⟨heq, hb, hnz⟩
          · omega
          · rw [bump_eq s.sequence hq0 hq1] at hb
            by_cases h4 : s.sequence = 4095
            · rw [if_pos h4] at hb; exact absurd hb hnz
            · rw [if_neg h4] at hb; omega
        obtain ⟨ihp, ihb⟩ := ih o.state o.clock (by rw [hm]; exact hm0)
          (by rw [hm]; exact hm1) hoq0 hoq1 hoclock
        rw [successIDs_cons_ok o _ he]
        have hr1 := hr.2
        norm_num at hr1
        constructor
        · rw [List.pairwise_cons]
          refine ⟨?_, ihp⟩
          intro b hb
          have := (ihb b hb).1
          rw [← hideq] at this
          exact this
        · intro id hidm
          rcases List.mem_cons.mp hidm with rfl | hidm
          · exact ⟨hstep, by rw [hideq]; omega, hfield⟩
          · obtain ⟨h1, h2, h3⟩ := ihb id hidm
            rw [← hideq] at h1
            rw [hm] at h3
            exact ⟨by omega, h2, h3⟩
      · obtain ⟨t, hc, _, _, _, hs⟩ := nextID_err_inv s clock o hn he
        have hoclock : ∀ x ∈ o.clock, epoch ≤ x ∧ x < epoch + 2 ^ 41 := by
          intro x hx
          apply hclock
          rw [hc]
          exact List.mem_cons_of_mem _ hx
        rw [successIDs_cons_err o _ he, hs]
        exact ih s o.clock hm0 hm1 hq0 hq1 hoclock

/-- Two identifiers with the same machine field compare like their decoded
triples. -/
theorem decode_lexLt (a b m : Int) (hab : a < b)
    (hma : and64 (shr64 a 12) 1023 = m) (hmb : and64 (shr64 b 12) 1023 = m) :
    lexLt (decode a) (decode b) := by
  unfold lexLt decode
  simp only [and64_1023, and64_4095] at *
  unfold shr64 at *
  norm_num at *
  omega

/-! ## A machine ID of minus one -/

theorem lor_neg_one (a : Int) : Int.lor a (-1) = -1 := by
  cases a with
  | ofNat m =>
    show Int.negSucc (Nat.ldiff 0 m) = -1
    simp [Nat.ldiff, Nat.bitwise_zero_left]
  | negSucc m =>
    show Int.negSucc (m &&& 0) = -1
    simp

/-- With machine ID `-1` the shifted machine field covers the whole time
field: the identifier is `-4096 | sequence`, whatever the timestamp. -/
theorem assemble_neg_one (t q : Int) (h0 : 0 ≤ q) (h1 : q ≤ 4095) :
    assemble t (-1) q = or64 (-4096) q ∧ or64 (-4096) q = -4096 + q := by
  have hB : shl64 (-1) 12 = -1 * 2 ^ 12 := by decide
  have hA := shl64_22_mod (sub64 t epoch)
  have e4 : (-4096 : Int) = -1 * 2 ^ 12 := by norm_num
  unfold assemble or64
  simp only [machineIDBits, sequenceBits]
  rw [hB]
  generalize shl64 (sub64 t epoch) (10 + 12) = A at hA ⊢
  have eA : A = A / 4096 * 2 ^ 12 := by norm_num; omega
  rw [eA, lor_mul_pow, lor_neg_one, e4]
  exact ⟨rfl, lor_mul_pow_add 12 (-1) q h0 (by norm_num; omega)⟩

/-! ## Invariants of a call -/

/-- A call never lowers `lastTimestamp`. -/
theorem nextID_last_le (s : Snowflake) (clock : List Int) (o : Outcome)
    (h : nextID s clock = some o) : s.lastTimestamp ≤ o.state.lastTimestamp := by
  by_cases he : o.err = none
  · obtain ⟨_, _, _, _, _, _, hcase⟩ := nextID_ok_inv s clock o h he
    rcases hcase with ⟨hlt, _⟩ | ⟨heq, _⟩
    · exact le_of_lt hlt
    · exact le_of_eq heq.symm
  · obtain ⟨_, _, _, _, _, hs⟩ := nextID_err_inv s clock o h he
    rw [hs]

/-- A call keeps the sequence inside [0, 4095]. -/
theorem nextID_sequence_range (s : Snowflake) (clock : List Int) (o : Outcome)
    (hs : 0 ≤ s.sequence ∧ s.sequence ≤ 4095) (h : nextID s clock = some o) :
    0 ≤ o.state.sequence ∧ o.state.sequence ≤ 4095 := by
  by_cases he : o.err = none
  · obtain ⟨_, _, hq0, hq1, _⟩ := nextID_ok_inv s clock o h he
    exact ⟨hq0, hq1⟩
  · obtain ⟨_, _, _, _, _, hst⟩ := nextID_err_inv s clock o h he
    rw [hst]; exact hs

/-- A successful call on a sequence inside its range moves
(lastTimestamp, sequence) strictly up. -/
theorem nextID_pairLt (s : Snowflake) (clock : List Int) (o : Outcome)
    (h0 : 0 ≤ s.sequence) (h1 : s.sequence ≤ 4095)
    (h : nextID s clock = some o) (he : o.err = none) :
    pairLt (s.lastTimestamp, s.sequence) (o.state.lastTimestamp, o.state.sequence) := by
  obtain ⟨_, _, _, _, _, _, hcase⟩ := nextID_ok_inv s clock o h he
  unfold pairLt
  rcases hcase with ⟨hlt, _⟩ | ⟨heq, hb, hnz⟩
  · exact Or.inl hlt
  · right
    refine ⟨heq.symm, ?_⟩
    rw [bump_eq s.sequence h0 h1] at hb
    by_cases h4 : s.sequence = 4095
    · rw [if_pos h4] at hb; exact absurd hb hnz
    · rw [if_neg h4] at hb
      show s.sequence < o.state.sequence
      omega

theorem pairLt_trans (a b c : Int × Int) (hab : pairLt a b) (hbc : pairLt b c) :
    pairLt a c := by
  unfold pairLt at *
  omega

theorem pairLt_ne (a b : Int × Int) (hab : pairLt a b) : a ≠ b := by
  intro h
  subst h
  unfold pairLt at hab
  omega

/-- Along a run the pairs of the successful calls increase strictly, and all
lie above the pair of the state the run starts from. -/
theorem run_pairs : ∀ (n : Nat) (s : Snowflake) (clock : List Int),
    0 ≤ s.sequence → s.sequence ≤ 4095 →
    (successPairs (generateMany n s clock)).Pairwise pairLt ∧
    ∀ p ∈ successPairs (generateMany n s clock),
      pairLt (s.lastTimestamp, s.sequence) p := by
  intro n
  induction n with
  | zero => intro s clock _ _; simp [generateMany, successPairs]
  | succ n ih =>
    intro s clock h0 h1
    unfold generateMany GenerateID
    cases hn : nextID s clock with
    | none => simp [successPairs]
    | some o =>
      simp only []
      obtain ⟨ho0, ho1⟩ := nextID_sequence_range s clock o ⟨h0, h1⟩ hn
      obtain ⟨ihp, ihb⟩ := ih o.state o.clock ho0 ho1
      by_cases he : o.err = none
      · have hstep := nextID_pairLt s clock o h0 h1 hn he
        have e : successPairs (o :: generateMany n o.state o.clock) =
            (o.state.lastTimestamp, o.state.sequence) ::
              successPairs (generateMany n o.state o.clock) := by
          simp [successPairs, he]
        rw [e]
        constructor
        · rw [List.pairwise_cons]
          exact ⟨ihb, ihp⟩
        · intro p hp
          rcases List.mem_cons.mp hp with rfl | hp
          · exact hstep
          · exact pairLt_trans _ _ _ hstep (ihb p hp)
      · obtain ⟨_, _, _, _, _, hs⟩ := nextID_err_inv s clock o hn he
        have e : successPairs (o :: generateMany n o.state o.clock) =
            successPairs (generateMany n o.state o.clock) := by
          simp [successPairs, he]
        rw [e]
        refine ⟨ihp, fun p hp => ?_⟩
        have hlt := ihb p hp
        rw [hs] at hlt
        exact hlt

/-- A list with an element above `last` splits at the first such element. -/
theorem exists_first_above (last : Int) : ∀ rest : List Int, (∃ x ∈ rest, last < x) →
    ∃ pre u post, rest = pre ++ u :: post ∧ (∀ x ∈ pre, x ≤ last) ∧ last < u := by
  intro rest
  induction rest with
  | nil => intro h; obtain ⟨x, hx, _⟩ := h; simp at hx
  | cons r rest ih =>
    intro h
    by_cases hr : last < r
    · exact ⟨[], r, rest, rfl, by simp, hr⟩
    · have h2 : ∃ x ∈ rest, last < x := by
        obtain ⟨x, hx, hlt⟩ := h
        rcases List.mem_cons.mp hx with rfl | hx
        · exact absurd hlt hr
        · exact ⟨x, hx, hlt⟩
      obtain ⟨pre, u, post, e, hpre, hu⟩ := ih h2
      refine ⟨r :: pre, u, post, by rw [e]; rfl, ?_, hu⟩
      intro x hx
      rcases List.mem_cons.mp hx with rfl | hx
      · exact not_lt.mp hr
      · exact hpre x hx

/-- Outside the 41-bit range the identifier is negative: below the epoch (for
a non-negative timestamp) and at `epoch + 2 ^ 41`. -/
theorem assemble_neg (t m q : Int) (hm0 : 0 ≤ m) (hm1 : m ≤ 1023)
    (h0 : 0 ≤ q) (h1 : q ≤ 4095) (ht0 : 0 ≤ t)
    (ht : t < epoch ∨ t - epoch = 2 ^ 41) : assemble t m q < 0 := by
  rw [assemble_eq_add t m q hm0 hm1 h0 h1]
  unfold shl64 sub64 wrap64 epoch at *
  norm_num at *
  omega

/-! ## The 4097th call within one millisecond -/

/-- The time field of an assembled identifier, for a timestamp within
`2 ^ 41` of the epoch on either side. -/
theorem assemble_time_field (t m q : Int) (hm0 : 0 ≤ m) (hm1 : m ≤ 1023)
    (h0 : 0 ≤ q) (h1 : q ≤ 4095) (ht0 : -(2 ^ 41) ≤ t - epoch)
    (ht1 : t - epoch < 2 ^ 41) : shr64 (assemble t m q) 22 = t - epoch := by
  rw [assemble_eq_add t m q hm0 hm1 h0 h1]
  unfold shr64 shl64 sub64 wrap64
  norm_num at *
  omega

/-- The overflow path: at sequence 4095 and a reading equal to
`lastTimestamp`, the call skips the readings not above `lastTimestamp` and
finishes at the first one above it. -/
theorem nextID_overflow_skip (s : Snowflake) (t : Int) (pre : List Int) (u : Int)
    (post : List Int) (hq : s.sequence = 4095) (ht : t = s.lastTimestamp)
    (hpre : ∀ x ∈ pre, x ≤ s.lastTimestamp) (hu : s.lastTimestamp < u) :
    nextID s (t :: (pre ++ u :: post)) =
      some { id := assemble u s.machineID 0, err := none,
             state := ⟨u, 0, s.machineID⟩, clock := post } := by
  have hb : and64 (add64 s.sequence 1) sequenceMax = 0 := by
    rw [bump_eq s.sequence (by omega) (by omega), if_pos hq]
  rw [nextID_overflow s t _ ht hb,
    waitNextMilli_skip s.lastTimestamp u post hu pre t (le_of_eq ht) hpre]

/-- The first and the 4097th outcome of a fresh generator that reads `t` 4097
times, then readings not above `t`, then `u > t`. -/
theorem run_4097 (m t : Int) (pre : List Int) (u : Int) (post : List Int)
    (ht : 0 < t) (hpre : ∀ x ∈ pre, x ≤ t) (hu : t < u) :
    (generateMany 4097 ⟨0, 0, m⟩
        (List.replicate 4096 t ++ (t :: (pre ++ u :: post))))[0]? =
      some { id := assemble t m 0, err := none, state := ⟨t, 0, m⟩,
             clock := List.replicate 4095 t ++ (t :: (pre ++ u :: post)) } ∧
    (generateMany 4097 ⟨0, 0, m⟩
        (List.replicate 4096 t ++ (t :: (pre ++ u :: post))))[4096]? =
      some { id := assemble u m 0, err := none, state := ⟨u, 0, m⟩, clock := post } := by
  have e : List.replicate 4096 t = t :: List.replicate 4095 t := rfl
  rw [e, List.cons_append, generateMany_succ_new 4096 ⟨0, 0, m⟩ t _ ht]
  refine ⟨by rw [List.getElem?_cons_zero], ?_⟩
  rw [List.getElem?_cons_succ]
  have h := generateMany_same_drop t (t :: (pre ++ u :: post)) 1 4095 ⟨t, 0, m⟩ rfl
    (le_refl _) (by show (0 : Int) + ((4095 : Nat) : Int) ≤ 4095; norm_num) 0
  rw [show (4095 : Nat) + 1 = 4096 from rfl, show (4095 : Nat) + 0 = 4095 from rfl] at h
  rw [h]
  have h1 := nextID_overflow_skip ⟨t, 0 + ((4095 : Nat) : Int), m⟩ t pre u post
    (by norm_num) rfl hpre hu
  simp only [generateMany, GenerateID, h1, List.getElem?_cons_zero]

/-! ## The claims -/

/-- C1 (uniqueness): for the generator returned by `New m` with `m` in
[0, 1023] and any run of `GenerateID` calls under a clock whose readings all
lie in `[epoch, epoch + 2 ^ 41)`, the identifiers returned by the successful
calls are pairwise distinct (failed calls return no identifier). -/
theorem generateID_unique (m : Int) (hm0 : 0 ≤ m) (hm1 : m ≤ 1023)
    (g : Snowflake) (hg : New m = .ok g) (n : Nat) (clock : List Int)
    (hclock : ∀ x ∈ clock, epoch ≤ x ∧ x < epoch + 2 ^ 41) :
    (successIDs (generateMany n g clock)).Nodup := by
  obtain ⟨rfl, _⟩ := New_ok m g hg
  have h := (run_increasing n ⟨0, 0, m⟩ clock hm0 hm1 (le_refl _) (by norm_num) hclock).1
  exact h.imp (fun hab => ne_of_lt hab)

/-- Witness for C1: generator 5 over the readings `epoch + 1000` (twice), a
regressed `epoch + 999` and `epoch + 1001`. -/
theorem generateID_unique_witness :
    (successIDs (generateMany 4 ⟨0, 0, 5⟩
      [epoch + 1000, epoch + 1000, epoch + 999, epoch + 1001])).Nodup :=
  generateID_unique 5 (by decide) (by decide) ⟨0, 0, 5⟩ rfl 4
    [epoch + 1000, epoch + 1000, epoch + 999, epoch + 1001] (by decide)

/-- C2 (monotonicity): for the generator returned by `New m` with `m` in
[0, 1023] and clock readings in `[epoch, epoch + 2 ^ 41)`, whenever two
successive successful `GenerateID` calls return `id1` then `id2`, `id1 < id2`
as signed integers and the decoded triple (elapsed, machineID, sequence) of
`id1` is strictly below that of `id2` in lexicographic order. -/
theorem generateID_monotone (m : Int) (hm0 : 0 ≤ m) (hm1 : m ≤ 1023)
    (g : Snowflake) (hg : New m = .ok g) (n : Nat) (clock : List Int)
    (hclock : ∀ x ∈ clock, epoch ≤ x ∧ x < epoch + 2 ^ 41) :
    (successIDs (generateMany n g clock)).Chain'
      (fun id1 id2 => id1 < id2 ∧ lexLt (decode id1) (decode id2)) := by
  obtain ⟨rfl, _⟩ := New_ok m g hg
  obtain ⟨hp, hb⟩ :=
    run_increasing n ⟨0, 0, m⟩ clock hm0 hm1 (le_refl _) (by norm_num) hclock
  apply List.Pairwise.chain'
  refine hp.imp_of_mem ?_
  intro a b ha hb1 hab
  exact ⟨hab, decode_lexLt a b m hab (hb a ha).2.2 (hb b hb1).2.2⟩

/-- Witness for C2: generator 5 over the readings `epoch + 1000` (twice), a
regressed `epoch + 999` and `epoch + 1001`. -/
theorem generateID_monotone_witness :
    (successIDs (generateMany 4 ⟨0, 0, 5⟩
      [epoch + 1000, epoch + 1000, epoch + 999, epoch + 1001])).Chain'
      (fun id1 id2 => id1 < id2 ∧ lexLt (decode id1) (decode id2)) :=
  generateID_monotone 5 (by decide) (by decide) ⟨0, 0, 5⟩ rfl 4
    [epoch + 1000, epoch + 1000, epoch + 999, epoch + 1001] (by decide)

/-- C3 (encoding): a successful `GenerateID` call returns
`((t - epoch) << 22) | (machineID << 12) | sequence` in int64 arithmetic,
where `t` and `sequence` are the generator's `lastTimestamp` and `sequence`
after the call, `machineID` is the generator's machine ID (the same before and
after) and `epoch = 1740304858525`. -/
theorem generateID_encoding (s : Snowflake) (clock : List Int) (o : Outcome)
    (h : GenerateID s clock = some o) (he : o.err = none) :
    o.id = or64 (or64 (shl64 (sub64 o.state.lastTimestamp epoch) 22)
        (shl64 s.machineID 12)) o.state.sequence ∧
    o.state.machineID = s.machineID ∧ epoch = 1740304858525 := by
  obtain ⟨hid, hm, _⟩ := nextID_ok_inv s clock o h he
  refine ⟨?_, hm, rfl⟩
  rw [hid, hm]
  rfl

/-- Witness for C3: generator 5 at `epoch + 1000`. -/
theorem generateID_encoding_witness :
    (4194324480 : Int) = or64 (or64 (shl64 (sub64 (epoch + 1000) epoch) 22)
        (shl64 5 12)) 0 ∧
    (5 : Int) = 5 ∧ epoch = 1740304858525 :=
  generateID_encoding ⟨0, 0, 5⟩ [epoch + 1000]
    ⟨4194324480, none, ⟨epoch + 1000, 0, 5⟩, []⟩ (by decide) rfl

/-- C5 (time field and sign bit): for a generator whose machine ID is in
[0, 1023], a successful call whose clock reading `t` (the one stored in
`lastTimestamp` and encoded) satisfies `0 ≤ t - epoch < 2 ^ 41` returns a
non-negative identifier with `id >> 22 = t - epoch`. -/
theorem generateID_time_field (s : Snowflake) (clock : List Int) (o : Outcome)
    (hm0 : 0 ≤ s.machineID) (hm1 : s.machineID ≤ 1023)
    (h : GenerateID s clock = some o) (he : o.err = none)
    (h0 : 0 ≤ o.state.lastTimestamp - epoch)
    (h1 : o.state.lastTimestamp - epoch < 2 ^ 41) :
    o.state.lastTimestamp ∈ clock ∧ 0 ≤ o.id ∧
      shr64 o.id 22 = o.state.lastTimestamp - epoch := by
  obtain ⟨hid, hm, hq0, hq1, hmem, _⟩ := nextID_ok_inv s clock o h he
  rw [hid, hm, assemble_eq_add _ _ _ hm0 hm1 hq0 hq1, shl64_sub64_inrange _ h0 h1]
  refine ⟨hmem, by omega, ?_⟩
  unfold shr64
  norm_num
  omega

/-- Witness for C5: generator 5 at `epoch + 1000`. -/
theorem generateID_time_field_witness :
    epoch + 1000 ∈ [epoch + 1000] ∧ (0 : Int) ≤ 4194324480 ∧
      shr64 4194324480 22 = epoch + 1000 - epoch :=
  generateID_time_field ⟨0, 0, 5⟩ [epoch + 1000]
    ⟨4194324480, none, ⟨epoch + 1000, 0, 5⟩, []⟩ (by decide) (by decide) (by decide) rfl
    (by decide) (by decide)

/-- C6 (construction): `New m` fails with `ErrInvalidMachineID` exactly when
`m > 1023`, and otherwise returns the generator with `machineID = m`,
`sequence = 0`, `lastTimestamp = 0`; `New 1023` succeeds and `New 1024`
fails. -/
theorem new_spec (m : Int) :
    (New m = .error .ErrInvalidMachineID ↔ m > 1023) ∧
    (New m = .ok { lastTimestamp := 0, sequence := 0, machineID := m } ↔ ¬ m > 1023) ∧
    New 1023 = .ok { lastTimestamp := 0, sequence := 0, machineID := 1023 } ∧
    New 1024 = .error .ErrInvalidMachineID := by
  unfold New
  rw [machineIDMax_eq]
  refine ⟨?_, ?_, by simp, by simp⟩
  · by_cases h : m > 1023 <;> simp [h]
  · by_cases h : m > 1023 <;> simp [h]

/-- C7 (clock regression is atomic): when the reading taken at the start of
`GenerateID` is below `lastTimestamp`, the call returns
`(0, ErrTimestampIsInvalid)` after that single reading and the generator's
`lastTimestamp`, `sequence` and `machineID` are what they were. -/
theorem generateID_regression (s : Snowflake) (t : Int) (rest : List Int)
    (h : t < s.lastTimestamp) :
    ∃ o, GenerateID s (t :: rest) = some o ∧ o.id = 0 ∧
      o.err = some .ErrTimestampIsInvalid ∧
      o.state.lastTimestamp = s.lastTimestamp ∧ o.state.sequence = s.sequence ∧
      o.state.machineID = s.machineID ∧ o.clock = rest :=
  ⟨_, nextID_regress s t rest h, rfl, rfl, rfl, rfl, rfl, rfl⟩

/-- Witness for C7: a generator last used at 100 reads 99. -/
theorem generateID_regression_witness :
    ∃ o, GenerateID ⟨100, 7, 5⟩ (99 :: [101]) = some o ∧ o.id = 0 ∧
      o.err = some .ErrTimestampIsInvalid ∧
      o.state.lastTimestamp = 100 ∧ o.state.sequence = 7 ∧
      o.state.machineID = 5 ∧ o.clock = [101] :=
  generateID_regression ⟨100, 7, 5⟩ 99 [101] (by decide)

/-- C4 (bit-field round-trip): for a generator built by `New m` with `m` in
[0, 1023], every identifier returned by any run of calls under any clock has
`(id >> 12) & 1023 = m`, and `id & 4095` is the generator's `sequence` after
the call, a value in [0, 4095]. -/
theorem generateID_roundtrip (m : Int) (hm0 : 0 ≤ m) (hm1 : m ≤ 1023)
    (g : Snowflake) (hg : New m = .ok g) (n : Nat) (clock : List Int)
    (o : Outcome) (ho : o ∈ generateMany n g clock) (he : o.err = none) :
    and64 (shr64 o.id 12) 1023 = m ∧ and64 o.id 4095 = o.state.sequence ∧
      0 ≤ o.state.sequence ∧ o.state.sequence ≤ 4095 := by
  have hgm : g.machineID = m := by
    unfold New at hg
    rw [machineIDMax_eq, if_neg (by omega)] at hg
    cases hg; rfl
  obtain ⟨s1, c1, hs1, hn⟩ := generateMany_mem (fun s => s.machineID = m)
    (fun s c o hs h => (nextID_machineID s c o h).trans hs) n g clock hgm o ho
  obtain ⟨hid, hm, hq0, hq1, _⟩ := nextID_ok_inv s1 c1 o hn he
  rw [hs1] at hm
  rw [hid, hm]
  exact ⟨assemble_machine_field _ m _ hm0 hm1 hq0 hq1, assemble_low _ m _ hq0 hq1, hq0, hq1⟩

/-- Witness for C4: the second identifier of generator 5 within one
millisecond. -/
theorem generateID_roundtrip_witness :
    and64 (shr64 4194324481 12) 1023 = 5 ∧ and64 4194324481 4095 = 1 ∧
      (0 : Int) ≤ 1 ∧ (1 : Int) ≤ 4095 :=
  generateID_roundtrip 5 (by decide) (by decide) ⟨0, 0, 5⟩ rfl 2
    [epoch + 1000, epoch + 1000] ⟨4194324481, none, ⟨epoch + 1000, 1, 5⟩, []⟩
    (by decide) rfl

/-- C8 (the only runtime fault): a `GenerateID` call that returns does so with
an error exactly when its first clock reading is below `lastTimestamp`, the
error is then `ErrTimestampIsInvalid`, and a first reading at or above
`lastTimestamp` gives a nil error.  The call returns unless the sequence
overflows and no later reading rises above `lastTimestamp`. -/
theorem generateID_only_fault (s : Snowflake) (t : Int) (rest : List Int) :
    (∀ o, GenerateID s (t :: rest) = some o →
      ((o.err ≠ none ↔ t < s.lastTimestamp) ∧
       (o.err ≠ none → o.err = some .ErrTimestampIsInvalid) ∧
       (s.lastTimestamp ≤ t → o.err = none))) ∧
    ((∃ o, GenerateID s (t :: rest) = some o) ↔
      (t ≠ s.lastTimestamp ∨ and64 (add64 s.sequence 1) sequenceMax ≠ 0 ∨
        ∃ x ∈ rest, s.lastTimestamp < x)) := by
  constructor
  · intro o h
    have hiff : o.err ≠ none ↔ t < s.lastTimestamp := by
      constructor
      · intro he
        obtain ⟨t1, hc, hlt, _⟩ := nextID_err_inv s (t :: rest) o h he
        cases hc
        exact hlt
      · intro hlt he
        have h2 := nextID_regress s t rest hlt
        unfold GenerateID at h
        rw [h2] at h
        cases h
        simp at he
    refine ⟨hiff, ?_, ?_⟩
    · intro he
      exact (nextID_err_inv s (t :: rest) o h he).choose_spec.2.2.2.1
    · intro hle
      by_contra he
      exact absurd (hiff.mp he) (not_lt.mpr hle)
  · unfold GenerateID
    rcases lt_trichotomy t s.lastTimestamp with hlt | heq | hgt
    · rw [nextID_regress s t rest hlt]
      exact ⟨fun _ => Or.inl (ne_of_lt hlt), fun _ => ⟨_, rfl⟩⟩
    · by_cases hq : and64 (add64 s.sequence 1) sequenceMax = 0
      · rw [nextID_overflow s t rest heq hq]
        by_cases hx : ∃ x ∈ rest, s.lastTimestamp < x
        · obtain ⟨u, c, hw⟩ := waitNextMilli_returns s.lastTimestamp rest t hx
          rw [hw]
          exact ⟨fun _ => Or.inr (Or.inr hx), fun _ => ⟨_, rfl⟩⟩
        · have hall : ∀ x ∈ rest, x ≤ s.lastTimestamp := by
            intro x hxm
            by_contra hc
            exact hx ⟨x, hxm, not_le.mp hc⟩
          rw [waitNextMilli_none s.lastTimestamp t rest (le_of_eq heq) hall]
          constructor
          · rintro ⟨o, ho⟩; simp at ho
          · rintro (h1 | h1 | h1)
            · exact absurd heq h1
            · exact absurd hq h1
            · exact absurd h1 hx
      · rw [nextID_same s t rest heq hq]
        exact ⟨fun _ => Or.inr (Or.inl hq), fun _ => ⟨_, rfl⟩⟩
    · rw [nextID_new s t rest hgt]
      exact ⟨fun _ => Or.inl (ne_of_gt hgt), fun _ => ⟨_, rfl⟩⟩

/-- C10 (same-millisecond scenario): for every `m` that `New` accepts (so in
particular `m` in [0, 1023]), a reading `t > 0` and `n ≤ 4096`, when the fresh
generator `New m` is called `n` times and the clock reads `t` on every call,
the `i`-th call (`i = 0 .. n - 1`) succeeds and returns
`((t - epoch) << 22) | (m << 12) | i`. -/
theorem generateID_same_millisecond (m : Int)
    (t : Int) (ht : 0 < t) (n : Nat) (hn : n ≤ 4096) (g : Snowflake)
    (hg : New m = .ok g) (i : Nat) (hi : i < n) :
    ∃ o, (generateMany n g (List.replicate n t))[i]? = some o ∧ o.err = none ∧
      o.id = or64 (or64 (shl64 (sub64 t epoch) 22) (shl64 m 12)) (i : Int) := by
  obtain ⟨rfl, _⟩ := New_ok m g hg
  cases n with
  | zero => omega
  | succ n =>
    rw [List.replicate_succ, generateMany_succ_new n ⟨0, 0, m⟩ t _ ht]
    cases i with
    | zero =>
      rw [List.getElem?_cons_zero]
      exact ⟨_, rfl, rfl, rfl⟩
    | succ i =>
      have h := generateMany_same_get t [] 0 n ⟨t, 0, m⟩ rfl (le_refl _)
        (by show (0 : Int) + (n : Int) ≤ 4095; omega) i (by omega)
      simp only [Nat.add_zero, List.append_nil] at h
      rw [List.getElem?_cons_succ, h]
      refine ⟨_, rfl, rfl, ?_⟩
      show assemble t m (0 + 1 + (i : Int)) = _
      have e : (0 : Int) + 1 + (i : Int) = ((i + 1 : Nat) : Int) := by push_cast; ring
      rw [e]
      rfl

/-- Witness for C10: generator 5 called twice at `epoch + 1000` returns
`(1000 << 22) | (5 << 12) | 0` and then `(1000 << 22) | (5 << 12) | 1`. -/
theorem generateID_same_millisecond_witness :
    (∃ o, (generateMany 2 ⟨0, 0, 5⟩ [epoch + 1000, epoch + 1000])[0]? = some o ∧
      o.err = none ∧ o.id = or64 (or64 (shl64 1000 22) (shl64 5 12)) 0) ∧
    (∃ o, (generateMany 2 ⟨0, 0, 5⟩ [epoch + 1000, epoch + 1000])[1]? = some o ∧
      o.err = none ∧ o.id = or64 (or64 (shl64 1000 22) (shl64 5 12)) 1) :=
  ⟨generateID_same_millisecond 5 (epoch + 1000) (by decide) 2 (by decide) ⟨0, 0, 5⟩ rfl 0
      (by decide),
   generateID_same_millisecond 5 (epoch + 1000) (by decide) 2 (by decide) ⟨0, 0, 5⟩ rfl 1
      (by decide)⟩

/-- C9 (sequence overflow), as amended: with `sequence = 4095` and a first
reading equal to `lastTimestamp`, the call skips every further reading that
is not above `lastTimestamp`, stops at the first one that is, and succeeds
with `sequence = 0` and `lastTimestamp` set to that reading.  Hence, for a
fresh generator, after 4096 calls at one reading `t > 0` a 4097th call in the
same millisecond that later reads `u > t` returns the identifier
`((u - epoch) << 22) | (m << 12) | 0`, whose sequence field is 0, and leaves
`lastTimestamp = u > t`.  When moreover the machine ID is in [0, 1023] and
`u - epoch < 2 ^ 41`, the time field of that identifier is `u - epoch`,
strictly above the time field `t - epoch` of the first identifier. -/
theorem generateID_sequence_overflow :
    (∀ (s : Snowflake) (t : Int) (pre : List Int) (u : Int) (post : List Int),
      s.sequence = 4095 → t = s.lastTimestamp → (∀ x ∈ pre, x ≤ s.lastTimestamp) →
      s.lastTimestamp < u →
      GenerateID s (t :: (pre ++ u :: post)) =
        some { id := assemble u s.machineID 0, err := none,
               state := ⟨u, 0, s.machineID⟩, clock := post }) ∧
    (∀ (m : Int) (g : Snowflake), New m = .ok g → ∀ (t : Int), 0 < t →
      ∀ (pre : List Int) (u : Int) (post : List Int), (∀ x ∈ pre, x ≤ t) → t < u →
      ∃ o, (generateMany 4097 g
              (List.replicate 4096 t ++ (t :: (pre ++ u :: post))))[4096]? = some o ∧
        o.err = none ∧ o.state.sequence = 0 ∧ and64 o.id 4095 = 0 ∧
        o.id = or64 (or64 (shl64 (sub64 u epoch) 22) (shl64 m 12)) 0 ∧
        o.state.lastTimestamp = u ∧ t < o.state.lastTimestamp ∧ o.clock = post) ∧
    (∀ (m : Int), 0 ≤ m → m ≤ 1023 → ∀ (g : Snowflake), New m = .ok g →
      ∀ (t : Int), 0 < t →
      ∀ (pre : List Int) (u : Int) (post : List Int), (∀ x ∈ pre, x ≤ t) → t < u →
      u - epoch < 2 ^ 41 →
      ∃ o1 o,
        (generateMany 4097 g
            (List.replicate 4096 t ++ (t :: (pre ++ u :: post))))[0]? = some o1 ∧
        (generateMany 4097 g
            (List.replicate 4096 t ++ (t :: (pre ++ u :: post))))[4096]? = some o ∧
        o1.err = none ∧ o.err = none ∧ and64 o.id 4095 = 0 ∧
        shr64 o1.id 22 = t - epoch ∧ shr64 o.id 22 = u - epoch ∧
        shr64 o1.id 22 < shr64 o.id 22) := by
  refine ⟨?_, ?_, ?_⟩
  · intro s t pre u post hq ht hpre hu
    exact nextID_overflow_skip s t pre u post hq ht hpre hu
  · intro m g hg t ht pre u post hpre hu
    obtain ⟨rfl, _⟩ := New_ok m g hg
    exact ⟨_, (run_4097 m t pre u post ht hpre hu).2, rfl, rfl,
      assemble_low u m 0 (le_refl _) (by norm_num), rfl, rfl, hu, rfl⟩
  · intro m hm0 hm1 g hg t ht pre u post hpre hu hr
    obtain ⟨rfl, _⟩ := New_ok m g hg
    obtain ⟨r0, r1⟩ := run_4097 m t pre u post ht hpre hu
    have he : -(2 ^ 41 : Int) ≤ 0 - epoch := by decide
    have f1 : shr64 (assemble t m 0) 22 = t - epoch :=
      assemble_time_field t m 0 hm0 hm1 (le_refl _) (by norm_num) (by omega) (by omega)
    have f2 : shr64 (assemble u m 0) 22 = u - epoch :=
      assemble_time_field u m 0 hm0 hm1 (le_refl _) (by norm_num) (by omega) hr
    refine ⟨_, _, r0, r1, rfl, rfl, assemble_low u m 0 (le_refl _) (by norm_num),
      f1, f2, ?_⟩
    show shr64 (assemble t m 0) 22 < shr64 (assemble u m 0) 22
    rw [f1, f2]
    omega

/-- Witness for C9: a generator at millisecond 100 with sequence 4095 reads
100, 100, 99 and then 103; and generator 5 reads `epoch + 1000` 4097 times and
then `epoch + 1001`. -/
theorem generateID_sequence_overflow_witness :
    GenerateID ⟨100, 4095, 5⟩ (100 :: ([100, 99] ++ 103 :: [104])) =
      some { id := assemble 103 5 0, err := none, state := ⟨103, 0, 5⟩, clock := [104] } ∧
    ∃ o1 o,
      (generateMany 4097 ⟨0, 0, 5⟩
          (List.replicate 4096 (epoch + 1000) ++ [epoch + 1000, epoch + 1001]))[0]? = some o1 ∧
      (generateMany 4097 ⟨0, 0, 5⟩
          (List.replicate 4096 (epoch + 1000) ++ [epoch + 1000, epoch + 1001]))[4096]? = some o ∧
      o1.err = none ∧ o.err = none ∧ and64 o.id 4095 = 0 ∧
      shr64 o1.id 22 = epoch + 1000 - epoch ∧ shr64 o.id 22 = epoch + 1001 - epoch ∧
      shr64 o1.id 22 < shr64 o.id 22 :=
  ⟨generateID_sequence_overflow.1 ⟨100, 4095, 5⟩ 100 [100, 99] 103 [104] rfl rfl
      (by decide) (by decide),
   generateID_sequence_overflow.2.2 5 (by decide) (by decide) ⟨0, 0, 5⟩ rfl (epoch + 1000)
      (by decide) [] (epoch + 1001) [] (by simp) (by decide) (by decide)⟩

/-- Counterexample for C9 as first stated, with the timestamp read off the
identifier and no range on the readings or the machine ID.  Generator 5 reads
`epoch + 2 ^ 41 - 1` 4097 times and then `epoch + 2 ^ 41`: the first
identifier has time field `2 ^ 41 - 1`, the 4097th is negative with time field
`-2 ^ 41`, below both the first one and the elapsed time of `t`.  Generator
`-1` reads 1000 4097 times and then 2000: both identifiers are `-4096`, with
time field `-1`. -/
theorem generateID_sequence_overflow_counterexample :
    (∃ o1 o,
      New 5 = .ok ⟨0, 0, 5⟩ ∧ (0 : Int) < epoch + 2199023255551 ∧
      (generateMany 4097 ⟨0, 0, 5⟩
          (List.replicate 4096 (epoch + 2199023255551) ++
            [epoch + 2199023255551, epoch + 2199023255552]))[0]? = some o1 ∧
      (generateMany 4097 ⟨0, 0, 5⟩
          (List.replicate 4096 (epoch + 2199023255551) ++
            [epoch + 2199023255551, epoch + 2199023255552]))[4096]? = some o ∧
      o1.err = none ∧ o.err = none ∧
      o1.id = 9223372036850601984 ∧ o.id = -9223372036854755328 ∧
      shr64 o1.id 22 = 2199023255551 ∧ shr64 o.id 22 = -2199023255552 ∧
      ¬ (shr64 o1.id 22 < shr64 o.id 22) ∧
      ¬ (epoch + 2199023255551 - epoch < shr64 o.id 22)) ∧
    (∃ o1 o,
      New (-1) = .ok ⟨0, 0, -1⟩ ∧
      (generateMany 4097 ⟨0, 0, -1⟩
          (List.replicate 4096 1000 ++ [1000, 2000]))[0]? = some o1 ∧
      (generateMany 4097 ⟨0, 0, -1⟩
          (List.replicate 4096 1000 ++ [1000, 2000]))[4096]? = some o ∧
      o1.err = none ∧ o.err = none ∧ o1.id = -4096 ∧ o.id = -4096 ∧
      ¬ (shr64 o1.id 22 < shr64 o.id 22)) := by
  constructor
  · obtain ⟨r0, r1⟩ := run_4097 5 (epoch + 2199023255551) [] (epoch + 2199023255552) []
      (by decide) (by simp) (by decide)
    have e1 : assemble (epoch + 2199023255551) 5 0 = 9223372036850601984 := by
      rw [assemble_eq_add _ _ _ (by decide) (by decide) (le_refl _) (by decide)]
      decide
    have e2 : assemble (epoch + 2199023255552) 5 0 = -9223372036854755328 := by
      rw [assemble_eq_add _ _ _ (by decide) (by decide) (le_refl _) (by decide)]
      decide
    refine ⟨_, _, by simp [New, machineIDMax_eq], by decide, r0, r1, rfl, rfl, e1, e2, ?_, ?_, ?_, ?_⟩
    · show shr64 (assemble (epoch + 2199023255551) 5 0) 22 = _
      rw [e1]; decide
    · show shr64 (assemble (epoch + 2199023255552) 5 0) 22 = _
      rw [e2]; decide
    · show ¬ (shr64 (assemble (epoch + 2199023255551) 5 0) 22
        < shr64 (assemble (epoch + 2199023255552) 5 0) 22)
      rw [e1, e2]; decide
    · show ¬ (epoch + 2199023255551 - epoch
        < shr64 (assemble (epoch + 2199023255552) 5 0) 22)
      rw [e2]; decide
  · obtain ⟨r0, r1⟩ := run_4097 (-1) 1000 [] 2000 [] (by decide) (by simp) (by decide)
    have e1 : assemble 1000 (-1) 0 = -4096 := by
      obtain ⟨a, b⟩ := assemble_neg_one 1000 0 (le_refl _) (by decide)
      rw [a, b]; decide
    have e2 : assemble 2000 (-1) 0 = -4096 := by
      obtain ⟨a, b⟩ := assemble_neg_one 2000 0 (le_refl _) (by decide)
      rw [a, b]; decide
    refine ⟨_, _, by simp [New, machineIDMax_eq], r0, r1, rfl, rfl, e1, e2, ?_⟩
    show ¬ (shr64 (assemble 1000 (-1) 0) 22 < shr64 (assemble 2000 (-1) 0) 22)
    rw [e1, e2]; decide

/-- C11 (negative machine IDs): `New m` succeeds for every `m < 0`; for
`m = -1` every successful `GenerateID` call returns `-4096 | sequence`
whatever the clock reading, so the time field `id >> 22` is `-1` and not the
elapsed time, and two identifiers minted in different milliseconds with the
same sequence value are equal. -/
theorem negative_machineID :
    (∀ m : Int, m < 0 → New m = .ok { lastTimestamp := 0, sequence := 0, machineID := m }) ∧
    (∀ (s : Snowflake) (clock : List Int) (o : Outcome), s.machineID = -1 →
      GenerateID s clock = some o → o.err = none →
        o.id = or64 (-4096) o.state.sequence ∧ o.id = -4096 + o.state.sequence ∧
        shr64 o.id 22 = -1) ∧
    (∀ t1 t2 : Int, 0 < t1 → t1 < t2 →
      successIDs (generateMany 2 ⟨0, 0, -1⟩ [t1, t2]) = [-4096, -4096]) := by
  refine ⟨?_, ?_, ?_⟩
  · intro m hm
    unfold New
    rw [machineIDMax_eq, if_neg (by omega)]
  · intro s clock o hs h he
    obtain ⟨hid, hm, hq0, hq1, _⟩ := nextID_ok_inv s clock o h he
    obtain ⟨e1, e2⟩ := assemble_neg_one o.state.lastTimestamp o.state.sequence hq0 hq1
    rw [hm, hs] at hid
    refine ⟨hid.trans e1, hid.trans (e1.trans e2), ?_⟩
    rw [hid, e1, e2]
    unfold shr64
    norm_num
    omega
  · intro t1 t2 h1 h2
    have e := (assemble_neg_one t1 0 (le_refl _) (by norm_num)).1.trans
      (assemble_neg_one t1 0 (le_refl _) (by norm_num)).2
    have e' := (assemble_neg_one t2 0 (le_refl _) (by norm_num)).1.trans
      (assemble_neg_one t2 0 (le_refl _) (by norm_num)).2
    rw [generateMany_succ_new 1 ⟨0, 0, -1⟩ t1 [t2] h1,
      generateMany_succ_new 0 ⟨t1, 0, -1⟩ t2 [] h2]
    simp only [generateMany, successIDs, List.filter, decide_True, List.map]
    rw [e, e']
    norm_num

/-- Witness for C11: generator `-1` at readings 1000 and 2000 returns `-4096`
twice. -/
theorem negative_machineID_witness :
    successIDs (generateMany 2 ⟨0, 0, -1⟩ [1000, 2000]) = [-4096, -4096] :=
  negative_machineID.2.2 1000 2000 (by decide) (by decide)

/-- C13 (same-millisecond step): when the first reading equals
`lastTimestamp` and `sequence = q` with `0 ≤ q < 4095`, the call succeeds
after that single reading, keeps `lastTimestamp` and sets `sequence` to
`q + 1`; in general a call that returns in this case leaves
`(sequence + 1) & 4095`; in the other cases the sequence is reset to 0 (later
reading) or left as it was (earlier reading), never incremented. -/
theorem generateID_same_step (s : Snowflake) (t : Int) (rest : List Int) :
    (t = s.lastTimestamp → 0 ≤ s.sequence → s.sequence < 4095 →
      GenerateID s (t :: rest) =
        some { id := assemble s.lastTimestamp s.machineID (s.sequence + 1), err := none,
               state := ⟨s.lastTimestamp, s.sequence + 1, s.machineID⟩, clock := rest }) ∧
    (t = s.lastTimestamp → ∀ o, GenerateID s (t :: rest) = some o →
      o.err = none ∧ o.state.sequence = and64 (add64 s.sequence 1) 4095) ∧
    (s.lastTimestamp < t → ∀ o, GenerateID s (t :: rest) = some o →
      o.state.sequence = 0) ∧
    (t < s.lastTimestamp → ∀ o, GenerateID s (t :: rest) = some o →
      o.state.sequence = s.sequence) := by
  unfold GenerateID
  refine ⟨?_, ?_, ?_, ?_⟩
  · intro ht h0 h1
    have hb : and64 (add64 s.sequence 1) sequenceMax = s.sequence + 1 := by
      rw [bump_eq s.sequence h0 (by omega), if_neg (by omega)]
    have hn := nextID_same s t rest ht (by rw [hb]; omega)
    rw [hb] at hn
    rw [hn, ht]
  · intro ht o h
    have he : o.err = none := by
      by_contra hne
      obtain ⟨t1, hc, hlt, _⟩ := nextID_err_inv s (t :: rest) o h hne
      cases hc
      omega
    refine ⟨he, ?_⟩
    obtain ⟨_, _, _, _, _, _, hcase⟩ := nextID_ok_inv s (t :: rest) o h he
    rw [← sequenceMax_eq]
    rcases hcase with ⟨hlt, hz⟩ | ⟨_, hb, _⟩
    · by_cases hq : and64 (add64 s.sequence 1) sequenceMax = 0
      · rw [hz, hq]
      · rw [nextID_same s t rest ht hq] at h
        cases h
        exact absurd hlt (by simp [ht])
    · exact hb
  · intro ht o h
    rw [nextID_new s t rest ht] at h
    cases h; rfl
  · intro ht o h
    rw [nextID_regress s t rest ht] at h
    cases h; rfl

/-- Witness for C13: a generator at millisecond 100 with sequence 7 reads
100. -/
theorem generateID_same_step_witness :
    GenerateID ⟨100, 7, 5⟩ (100 :: [101]) =
      some { id := assemble 100 5 (7 + 1), err := none, state := ⟨100, 7 + 1, 5⟩,
             clock := [101] } :=
  (generateID_same_step ⟨100, 7, 5⟩ 100 [101]).1 rfl (by decide) (by decide)

/-- C14 (new-millisecond step): when the first reading `t` is above
`lastTimestamp`, the call succeeds after that single reading with
`sequence = 0` and `lastTimestamp = t`, whatever the sequence was. -/
theorem generateID_new_step (s : Snowflake) (t : Int) (rest : List Int)
    (h : s.lastTimestamp < t) :
    ∃ o, GenerateID s (t :: rest) = some o ∧ o.err = none ∧ o.clock = rest ∧
      o.state.sequence = 0 ∧ o.state.lastTimestamp = t ∧
      o.state.machineID = s.machineID ∧ o.id = assemble t s.machineID 0 :=
  ⟨_, nextID_new s t rest h, rfl, rfl, rfl, rfl, rfl, rfl⟩

/-- Witness for C14: a generator at millisecond 100 with sequence 4095 reads
101. -/
theorem generateID_new_step_witness :
    ∃ o, GenerateID ⟨100, 4095, 5⟩ (101 :: [102]) = some o ∧ o.err = none ∧
      o.clock = [102] ∧ o.state.sequence = 0 ∧ o.state.lastTimestamp = 101 ∧
      o.state.machineID = 5 ∧ o.id = assemble 101 5 0 :=
  generateID_new_step ⟨100, 4095, 5⟩ 101 [102] (by decide)

/-- C15 (`lastTimestamp` is monotone): after any `GenerateID` call that
returns, with or without error, `lastTimestamp` is at least what it was; along
any run of calls the successive values of `lastTimestamp`, starting from the
initial one, never decrease. -/
theorem lastTimestamp_monotone :
    (∀ (s : Snowflake) (clock : List Int) (o : Outcome),
      GenerateID s clock = some o → s.lastTimestamp ≤ o.state.lastTimestamp) ∧
    (∀ (n : Nat) (s : Snowflake) (clock : List Int),
      List.Chain (fun a b => a ≤ b) s.lastTimestamp
        ((generateMany n s clock).map (fun o => o.state.lastTimestamp))) := by
  refine ⟨nextID_last_le, ?_⟩
  intro n
  induction n with
  | zero => intro s clock; simp [generateMany]
  | succ n ih =>
    intro s clock
    unfold generateMany GenerateID
    cases hn : nextID s clock with
    | none => simp
    | some o =>
      simp only [List.map_cons, List.chain_cons]
      exact ⟨nextID_last_le s clock o hn, ih o.state o.clock⟩

/-- Witness for C15: a generator at millisecond 100 reads 100, 99 and 103. -/
theorem lastTimestamp_monotone_witness :
    List.Chain (fun a b => a ≤ b) (100 : Int)
      ((generateMany 3 ⟨100, 0, 5⟩ [100, 99, 103]).map (fun o => o.state.lastTimestamp)) :=
  lastTimestamp_monotone.2 3 ⟨100, 0, 5⟩ [100, 99, 103]

/-- C16 (sequence range invariant): the generator returned by `New` has its
sequence in [0, 4095], and so has every state reached from it by any run of
`GenerateID` calls under any clock. -/
theorem sequence_range_invariant (m : Int) (g : Snowflake) (hg : New m = .ok g)
    (n : Nat) (clock : List Int) :
    (0 ≤ g.sequence ∧ g.sequence ≤ 4095) ∧
    ∀ o ∈ generateMany n g clock, 0 ≤ o.state.sequence ∧ o.state.sequence ≤ 4095 := by
  obtain ⟨rfl, _⟩ := New_ok m g hg
  have h0 : (0 : Int) ≤ 0 ∧ (0 : Int) ≤ 4095 := ⟨le_refl _, by norm_num⟩
  refine ⟨h0, ?_⟩
  intro o ho
  obtain ⟨s1, c1, hs1, hn⟩ := generateMany_mem
    (fun s => 0 ≤ s.sequence ∧ s.sequence ≤ 4095)
    (fun s c o hs h => nextID_sequence_range s c o hs h) n ⟨0, 0, m⟩ clock h0 o ho
  exact nextID_sequence_range s1 c1 o hs1 hn

/-- Witness for C16: generator 5 over four readings, one of them regressed. -/
theorem sequence_range_invariant_witness :
    ((0 : Int) ≤ 0 ∧ (0 : Int) ≤ 4095) ∧
    ∀ o ∈ generateMany 4 ⟨0, 0, 5⟩ [1000, 1000, 999, 1001],
      0 ≤ o.state.sequence ∧ o.state.sequence ≤ 4095 :=
  sequence_range_invariant 5 ⟨0, 0, 5⟩ rfl 4 [1000, 1000, 999, 1001]

/-- C17 (frame): a `GenerateID` call that returns, on any path, leaves
`machineID` as it was, so `lastTimestamp` and `sequence` are the only fields
it can change; along any run from `New m` the machine ID stays `m`. -/
theorem machineID_frame :
    (∀ (s : Snowflake) (clock : List Int) (o : Outcome),
      GenerateID s clock = some o →
        o.state.machineID = s.machineID ∧
        o.state = { s with lastTimestamp := o.state.lastTimestamp,
                           sequence := o.state.sequence }) ∧
    (∀ (m : Int) (g : Snowflake), New m = .ok g → ∀ (n : Nat) (clock : List Int),
      g.machineID = m ∧ ∀ o ∈ generateMany n g clock, o.state.machineID = m) := by
  constructor
  · intro s clock o h
    have hm := nextID_machineID s clock o h
    refine ⟨hm, ?_⟩
    rw [← hm]
  · intro m g hg n clock
    obtain ⟨rfl, _⟩ := New_ok m g hg
    refine ⟨rfl, ?_⟩
    intro o ho
    obtain ⟨s1, c1, hs1, hn⟩ := generateMany_mem (fun s => s.machineID = m)
      (fun s c o hs h => (nextID_machineID s c o h).trans hs) n ⟨0, 0, m⟩ clock rfl o ho
    exact (nextID_machineID s1 c1 o hn).trans hs1

/-- Witness for C17: generator 5 over a new millisecond, a same-millisecond
call and a regressed reading. -/
theorem machineID_frame_witness :
    (⟨0, 0, 5⟩ : Snowflake).machineID = 5 ∧
    ∀ o ∈ generateMany 3 ⟨0, 0, 5⟩ [1000, 1000, 999], o.state.machineID = 5 :=
  machineID_frame.2 5 ⟨0, 0, 5⟩ rfl 3 [1000, 1000, 999]

/-- C18 (the wait is bounded by the clock): with `sequence = 4095` and a first
reading equal to `lastTimestamp`, `GenerateID` returns as soon as the readings
still to come contain one above `lastTimestamp`; it consumes the readings up
to and including the first such one and no more.  The wait itself is the
total function `waitNextMilli`, defined by recursion on the readings. -/
theorem generateID_wait_bounded (s : Snowflake) (t : Int) (rest : List Int)
    (hq : s.sequence = 4095) (ht : t = s.lastTimestamp)
    (hex : ∃ x ∈ rest, s.lastTimestamp < x) :
    ∃ pre u post, rest = pre ++ u :: post ∧ (∀ x ∈ pre, x ≤ s.lastTimestamp) ∧
      s.lastTimestamp < u ∧
      waitNextMilli s.lastTimestamp t rest = some (u, post) ∧
      GenerateID s (t :: rest) =
        some { id := assemble u s.machineID 0, err := none,
               state := ⟨u, 0, s.machineID⟩, clock := post } := by
  obtain ⟨pre, u, post, e, hpre, hu⟩ := exists_first_above s.lastTimestamp rest hex
  have hw := waitNextMilli_skip s.lastTimestamp u post hu pre t (le_of_eq ht) hpre
  have hb : and64 (add64 s.sequence 1) sequenceMax = 0 := by
    rw [bump_eq s.sequence (by omega) (by omega), if_pos hq]
  refine ⟨pre, u, post, e, hpre, hu, by rw [e]; exact hw, ?_⟩
  unfold GenerateID
  rw [nextID_overflow s t rest ht hb, e, hw]

/-- Witness for C18: a generator at millisecond 100 with sequence 4095 reads
100, then 100, 99, 103 and 104. -/
theorem generateID_wait_bounded_witness :
    ∃ pre u post, [100, 99, 103, 104] = pre ++ u :: post ∧
      (∀ x ∈ pre, x ≤ (100 : Int)) ∧ (100 : Int) < u ∧
      waitNextMilli 100 100 [100, 99, 103, 104] = some (u, post) ∧
      GenerateID ⟨100, 4095, 5⟩ (100 :: [100, 99, 103, 104]) =
        some { id := assemble u 5 0, err := none, state := ⟨u, 0, 5⟩, clock := post } :=
  generateID_wait_bounded ⟨100, 4095, 5⟩ 100 [100, 99, 103, 104] rfl rfl
    ⟨103, by decide, by decide⟩

/-- C19 (state-level strict order): for any state with sequence in [0, 4095]
and any clock, a successful `GenerateID` call leaves
(lastTimestamp, sequence) strictly above what it was, lexicographically; so
along any run from such a state the pairs the successful calls finish with
are strictly increasing and no two of them are equal. -/
theorem state_strict_order :
    (∀ (s : Snowflake) (clock : List Int) (o : Outcome),
      0 ≤ s.sequence → s.sequence ≤ 4095 → GenerateID s clock = some o → o.err = none →
        pairLt (s.lastTimestamp, s.sequence) (o.state.lastTimestamp, o.state.sequence)) ∧
    (∀ (n : Nat) (s : Snowflake) (clock : List Int),
      0 ≤ s.sequence → s.sequence ≤ 4095 →
        (successPairs (generateMany n s clock)).Pairwise pairLt ∧
        (successPairs (generateMany n s clock)).Nodup) := by
  refine ⟨nextID_pairLt, ?_⟩
  intro n s clock h0 h1
  have hp := (run_pairs n s clock h0 h1).1
  exact ⟨hp, hp.imp (fun hab => pairLt_ne _ _ hab)⟩

/-- Witness for C19: a generator at millisecond 100 with sequence 4094 reads
100, 100, 99, 103 and 104. -/
theorem state_strict_order_witness :
    (successPairs (generateMany 4 ⟨100, 4094, 5⟩ [100, 100, 99, 103, 104])).Pairwise pairLt ∧
    (successPairs (generateMany 4 ⟨100, 4094, 5⟩ [100, 100, 99, 103, 104])).Nodup :=
  state_strict_order.2 4 ⟨100, 4094, 5⟩ [100, 100, 99, 103, 104] (by decide) (by decide)

/-- C20 (no range check on time): `timeMax` plays no part in `GenerateID`:
a first reading above `lastTimestamp` succeeds whatever its distance from the
epoch.  For a machine ID in [0, 1023] and a generator whose `lastTimestamp` is
not negative (as it is for every generator `New` returns and every state
reached from one), a successful call whose reading `t` is below the epoch or
has `t - epoch = 2 ^ 41` returns a negative identifier; a fresh generator
reading `0 < t < epoch` is an instance. -/
theorem no_time_range_check :
    (∀ (s : Snowflake) (t : Int) (rest : List Int), s.lastTimestamp < t →
      ∃ o, GenerateID s (t :: rest) = some o ∧ o.err = none ∧
        o.state.lastTimestamp = t) ∧
    (∀ (s : Snowflake) (clock : List Int) (o : Outcome),
      0 ≤ s.machineID → s.machineID ≤ 1023 → 0 ≤ s.lastTimestamp →
      GenerateID s clock = some o → o.err = none →
      (o.state.lastTimestamp < epoch ∨ o.state.lastTimestamp - epoch = 2 ^ 41) →
        o.id < 0) ∧
    (∀ (m : Int), 0 ≤ m → m ≤ 1023 → ∀ (g : Snowflake), New m = .ok g →
      ∀ (n : Nat) (clock : List Int), ∀ o ∈ generateMany n g clock, o.err = none →
      (o.state.lastTimestamp < epoch ∨ o.state.lastTimestamp - epoch = 2 ^ 41) →
        o.id < 0) ∧
    (∀ (m : Int), 0 ≤ m → m ≤ 1023 → ∀ (g : Snowflake), New m = .ok g →
      ∀ (t : Int), 0 < t → (t < epoch ∨ t - epoch = 2 ^ 41) →
        ∃ o, GenerateID g [t] = some o ∧ o.err = none ∧ o.id < 0) := by
  have step : ∀ (s : Snowflake) (clock : List Int) (o : Outcome),
      0 ≤ s.machineID → s.machineID ≤ 1023 → 0 ≤ s.lastTimestamp →
      nextID s clock = some o → o.err = none →
      (o.state.lastTimestamp < epoch ∨ o.state.lastTimestamp - epoch = 2 ^ 41) →
        o.id < 0 := by
    intro s clock o hm0 hm1 hl h he ht
    obtain ⟨hid, hm, hq0, hq1, _⟩ := nextID_ok_inv s clock o h he
    rw [hid, hm]
    exact assemble_neg _ _ _ hm0 hm1 hq0 hq1
      (le_trans hl (nextID_last_le s clock o h)) ht
  refine ⟨?_, step, ?_, ?_⟩
  · intro s t rest h
    exact ⟨_, nextID_new s t rest h, rfl, rfl⟩
  · intro m hm0 hm1 g hg n clock o ho he ht
    obtain ⟨rfl, _⟩ := New_ok m g hg
    obtain ⟨s1, c1, hs1, hn⟩ := generateMany_mem
      (fun s => s.machineID = m ∧ 0 ≤ s.lastTimestamp)
      (fun s c o hs h => ⟨(nextID_machineID s c o h).trans hs.1,
        le_trans hs.2 (nextID_last_le s c o h)⟩)
      n ⟨0, 0, m⟩ clock ⟨rfl, le_refl _⟩ o ho
    exact step s1 c1 o (by rw [hs1.1]; exact hm0) (by rw [hs1.1]; exact hm1) hs1.2 hn he ht
  · intro m hm0 hm1 g hg t ht0 ht
    obtain ⟨rfl, _⟩ := New_ok m g hg
    have hn := nextID_new ⟨0, 0, m⟩ t [] ht0
    exact ⟨_, hn, rfl, step ⟨0, 0, m⟩ [t] _ hm0 hm1 (le_refl _) hn rfl ht⟩

/-- Witness for C20: the fresh generator 5 reading `epoch - 1`, one
millisecond before the epoch. -/
theorem no_time_range_check_witness :
    ∃ o, GenerateID ⟨0, 0, 5⟩ [epoch - 1] = some o ∧ o.err = none ∧ o.id < 0 :=
  no_time_range_check.2.2.2 5 (by decide) (by decide) ⟨0, 0, 5⟩ rfl (epoch - 1)
    (by decide) (Or.inl (by decide))

end Snowflakego
